import Mathlib

/-!
Verification of the Nexus AI Browser real-time analysis and personalization
core against its natural-language specification.

The definitions below are shallow embeddings of the JavaScript source:
* `RealTimeAnalyzer.js` — content classification, engagement prediction,
  mood inference, page analysis with fallback;
* `PersonalizationEngine` (interest/behavior/personality/preference updates);
* `DataCollector.analyzeAttentionPattern`.

JavaScript numbers are modelled as `ℚ` (no NaN/Infinity arise on the
modelled paths given rational inputs), JS arrays as `List`, objects with
possibly-undefined numeric fields as `Option ℚ`, and `Date.now()` /
`new Date().getHours()` etc. as explicit parameters.
-/

namespace Nexus

/-- JS `x || d` for a possibly-undefined numeric field: `undefined` and `0`
are falsy, any other number is returned unchanged. -/
def jsOr (x : Option ℚ) (d : ℚ) : ℚ :=
  match x with
  | none => d
  | some v => if v = 0 then d else v

/-- JS truthiness of a possibly-undefined string (`undefined` and `""` are
falsy). -/
def jsTruthyStr (x : Option String) : Bool :=
  match x with
  | none => false
  | some s => !s.isEmpty

/-- Clamp a rational to the unit interval `[0,1]`. -/
def clamp01 (x : ℚ) : ℚ := max 0 (min 1 x)

/-- Character-list substring test: does `t` contain `pat` as a contiguous
run?  This is JS `String.prototype.includes` on the underlying characters. -/
def subChars (pat : List Char) : List Char → Bool
  | [] => pat.isEmpty
  | c :: ts => pat.isPrefixOf (c :: ts) || subChars pat ts

/-- JS `text.includes(keyword)`. -/
def strIncludes (text keyword : String) : Bool :=
  subChars keyword.data text.data

/-- ASCII lower-casing of one character (agrees with JS `toLowerCase` on the
ASCII range, which covers the classifier table and the profile keys). -/
def charLower (c : Char) : Char :=
  if 65 ≤ c.toNat ∧ c.toNat ≤ 90 then Char.ofNat (c.toNat + 32) else c

/-- JS `s.toLowerCase()`. -/
def jsToLower (s : String) : String := String.mk (s.data.map charLower)

/-! ## Content classification (`RealTimeAnalyzer.classifyContent`) -/

/-- The fixed category → keyword table of `classifyContent`, in the source's
object-literal insertion order (which is the iteration order of
`Object.entries`). -/
def categoriesTable : List (String × List String) :=
  [ ("news", ["news", "article", "breaking", "report", "journalist"]),
    ("education", ["learn", "tutorial", "course", "study", "education", "academic"]),
    ("entertainment", ["movie", "music", "game", "fun", "entertainment", "celebrity"]),
    ("technology", ["tech", "software", "computer", "AI", "programming", "developer"]),
    ("business", ["business", "finance", "market", "economy", "investment", "startup"]),
    ("health", ["health", "medical", "doctor", "fitness", "wellness", "nutrition"]),
    ("sports", ["sport", "game", "team", "player", "championship", "athletic"]),
    ("travel", ["travel", "trip", "vacation", "destination", "hotel", "flight"]),
    ("food", ["food", "recipe", "cooking", "restaurant", "chef", "cuisine"]),
    ("fashion", ["fashion", "style", "clothing", "designer", "trend", "beauty"]),
    ("science", ["science", "research", "study", "experiment", "discovery", "theory"]),
    ("politics", ["politics", "government", "election", "policy", "politician", "vote"]) ]

/-- Per-category hit count: `keywords.reduce((acc, keyword) =>
acc + (text.includes(keyword) ? 1 : 0), 0)`. -/
def categoryScore (text : String) (keywords : List String) : ℕ :=
  keywords.countP (fun k => strIncludes text k)

/-- The classification loop of `classifyContent`: starting from
`bestCategory = 'general'`, `bestScore = 0`, replace the best pair whenever a
category's score is strictly greater. -/
def classifyFold (text : String) : List (String × List String) → String × ℕ → String × ℕ
  | [], best => best
  | (cat, kws) :: rest, best =>
      let s := categoryScore text kws
      if s > best.2 then classifyFold text rest (cat, s)
      else classifyFold text rest best

/-- The joined noun/verb text the classifier scores against:
`textAnalysis.grammar.nouns.concat(textAnalysis.grammar.verbs).join(' ').toLowerCase()`. -/
def grammarText (nouns verbs : List String) : String :=
  jsToLower (String.intercalate " " (nouns ++ verbs))

/-- The scoring part of `classifyContent` (lines 293–309): the
bestCategory/bestScore loop over the fixed table and the `primary` /
`confidence` fields of the return object, with confidence
`min(1, bestScore / 3)`.  The full function — `classifyContent` below —
never returns this pair: building its return object raises first. -/
def classifyBest (nouns verbs : List String) : String × ℚ :=
  let text := grammarText nouns verbs
  let best := classifyFold text categoriesTable ("general", 0)
  (best.1, min 1 ((best.2 : ℚ) / 3))

/-- A JS runtime error raised inside the analyzer. -/
inductive JsErr where
  | typeError : JsErr
  deriving DecidableEq

/-- The return object of `classifyContent`: primary, confidence and the
`alternatives` list. -/
structure CategoryFull where
  primary : String
  confidence : ℚ
  alternatives : List String
  deriving DecidableEq

/-- `this.getAlternativeCategories(categories, text)` (line 310): the class
defines no method of this name anywhere in the repository ("Additional
helper methods would be implemented here..."), so in JS the call raises
`TypeError: this.getAlternativeCategories is not a function`. -/
def getAlternativeCategoriesE : Except JsErr (List String) :=
  Except.error JsErr.typeError

/-- `classifyContent` (lines 274–312), faithful to its error path: the
scoring computation (`classifyBest`) followed by the return object literal,
whose `alternatives` property raises — so every invocation ends in a
`TypeError` and the computed winner is never returned. -/
def classifyContent (nouns verbs : List String) : Except JsErr CategoryFull := do
  let p := classifyBest nouns verbs
  let alts ← getAlternativeCategoriesE
  pure ⟨p.1, p.2, alts⟩

/-- Maximum hit count over a table suffix, folded onto a running best `bs`. -/
def maxScoreFrom (text : String) (bs : ℕ) (l : List (String × List String)) : ℕ :=
  l.foldr (fun p m => max (categoryScore text p.2) m) bs

/-- Maximum hit count over the whole category table. -/
def maxTableScore (text : String) (l : List (String × List String)) : ℕ :=
  maxScoreFrom text 0 l

theorem maxScoreFrom_ge (text : String) (bs : ℕ) :
    ∀ l : List (String × List String), bs ≤ maxScoreFrom text bs l
  | [] => le_refl _
  | _p :: rest =>
      le_trans (maxScoreFrom_ge text bs rest) (le_max_right _ _)

theorem maxScoreFrom_max (text : String) (a b : ℕ) :
    ∀ l : List (String × List String),
      maxScoreFrom text (max a b) l = max a (maxScoreFrom text b l)
  | [] => rfl
  | p :: rest => by
      show max (categoryScore text p.2) (maxScoreFrom text (max a b) rest)
          = max a (max (categoryScore text p.2) (maxScoreFrom text b rest))
      rw [maxScoreFrom_max text a b rest]
      exact max_left_comm _ _ _

/-- The second component of the classification loop is the running maximum
of the per-category scores. -/
theorem classifyFold_snd (text : String) :
    ∀ (l : List (String × List String)) (bc : String) (bs : ℕ),
      (classifyFold text l (bc, bs)).2 = maxScoreFrom text bs l
  | [], _, _ => rfl
  | (cat, kws) :: rest, bc, bs => by
      simp only [classifyFold]
      by_cases h : categoryScore text kws > bs
      · simp only [h, if_pos]
        rw [classifyFold_snd text rest cat (categoryScore text kws)]
        have : categoryScore text kws = max (categoryScore text kws) bs :=
          (max_eq_left (le_of_lt h)).symm
        rw [show maxScoreFrom text (categoryScore text kws) rest
              = maxScoreFrom text (max (categoryScore text kws) bs) rest by rw [← this],
            maxScoreFrom_max]
        rfl
      · simp only [h, if_neg, not_false_iff]
        rw [classifyFold_snd text rest bc bs]
        have hle : categoryScore text kws ≤ maxScoreFrom text bs rest :=
          le_trans (not_lt.mp h) (maxScoreFrom_ge text bs rest)
        simp only [maxScoreFrom, List.foldr_cons]
        exact (max_eq_right hle).symm

/-- If no category beats the running best, the loop keeps its accumulator. -/
theorem classifyFold_stay (text : String) :
    ∀ (l : List (String × List String)) (bc : String) (bs : ℕ),
      maxScoreFrom text bs l = bs → classifyFold text l (bc, bs) = (bc, bs)
  | [], _, _, _ => rfl
  | (cat, kws) :: rest, bc, bs, hmax => by
      have hrest_ge : bs ≤ maxScoreFrom text bs rest := maxScoreFrom_ge text bs rest
      have hcons : max (categoryScore text kws) (maxScoreFrom text bs rest) = bs := hmax
      have hs_le : categoryScore text kws ≤ bs := by
        calc categoryScore text kws ≤ max (categoryScore text kws) (maxScoreFrom text bs rest) :=
              le_max_left _ _
          _ = bs := hcons
      have hrest : maxScoreFrom text bs rest = bs :=
        le_antisymm (le_trans (le_max_right (categoryScore text kws) _) hcons.le) hrest_ge
      simp only [classifyFold]
      rw [if_neg (by omega)]
      exact classifyFold_stay text rest bc bs hrest

/-- When some category strictly beats the running best, the loop's winner is
the first table entry attaining the overall maximum score. -/
theorem classifyFold_find (text : String) :
    ∀ (l : List (String × List String)) (bc : String) (bs : ℕ),
      bs < maxScoreFrom text bs l →
      (l.find? (fun p => categoryScore text p.2 == maxScoreFrom text bs l)).map Prod.fst
        = some (classifyFold text l (bc, bs)).1
  | [], _, bs, h => absurd h (lt_irrefl bs)
  | (cat, kws) :: rest, bc, bs, h => by
      have hM : maxScoreFrom text bs ((cat, kws) :: rest)
          = max (categoryScore text kws) (maxScoreFrom text bs rest) := rfl
      by_cases hgt : categoryScore text kws > bs
      · have hshift : maxScoreFrom text (categoryScore text kws) rest
            = max (categoryScore text kws) (maxScoreFrom text bs rest) := by
          rw [show categoryScore text kws = max (categoryScore text kws) bs from
                (max_eq_left (le_of_lt hgt)).symm, maxScoreFrom_max]
          simp [max_eq_left (le_of_lt hgt)]
        by_cases hstay : maxScoreFrom text (categoryScore text kws) rest = categoryScore text kws
        · -- the head already attains the overall maximum
          have hMs : maxScoreFrom text bs ((cat, kws) :: rest) = categoryScore text kws := by
            rw [hM, ← hshift, hstay]
          rw [List.find?_cons_of_pos _ (by simp [hMs]),
              show classifyFold text ((cat, kws) :: rest) (bc, bs)
                = classifyFold text rest (cat, categoryScore text kws) by
                  simp [classifyFold, hgt],
              classifyFold_stay text rest cat (categoryScore text kws) hstay]
          rfl
        · -- the maximum is attained strictly later
          have hlt : categoryScore text kws < maxScoreFrom text (categoryScore text kws) rest :=
            lt_of_le_of_ne (maxScoreFrom_ge text _ rest) (fun e => hstay e.symm)
          have hMs : maxScoreFrom text bs ((cat, kws) :: rest)
              = maxScoreFrom text (categoryScore text kws) rest := by rw [hM, ← hshift]
          rw [List.find?_cons_of_neg _ (by simp [hMs]; omega),
              show classifyFold text ((cat, kws) :: rest) (bc, bs)
                = classifyFold text rest (cat, categoryScore text kws) by
                  simp [classifyFold, hgt],
              hMs, classifyFold_find text rest cat (categoryScore text kws) hlt]
      · -- head does not beat the accumulator: winner comes from the tail
        have hsle : categoryScore text kws ≤ bs := not_lt.mp hgt
        have hMr : maxScoreFrom text bs ((cat, kws) :: rest) = maxScoreFrom text bs rest := by
          rw [hM]
          exact max_eq_right (le_trans hsle (maxScoreFrom_ge text bs rest))
        have hlt : bs < maxScoreFrom text bs rest := by rw [hMr] at h; exact h
        rw [List.find?_cons_of_neg _ (by simp [hMr]; omega),
            show classifyFold text ((cat, kws) :: rest) (bc, bs)
              = classifyFold text rest (bc, bs) by simp [classifyFold, hgt],
            hMr, classifyFold_find text rest bc bs hlt]

/-- The scoring loop computes the spec's argmax rule: `classifyBest` keeps
`"general"` when the maximal hit count `M` over the table is 0, otherwise
returns the first table entry (insertion order) attaining `M`, with
confidence `min(1, M/3)`.  Supporting lemma for the C4 finding: this is the
sub-computation of `classifyContent` (lines 293–309) whose result the
function then fails to return. -/
theorem classifyBest_argmax (nouns verbs : List String) (M : ℕ)
    (hM : M = maxTableScore (grammarText nouns verbs) categoriesTable) :
    (M = 0 → (classifyBest nouns verbs).1 = "general")
    ∧ (0 < M →
        (categoriesTable.find?
            (fun p => categoryScore (grammarText nouns verbs) p.2 == M)).map Prod.fst
          = some (classifyBest nouns verbs).1)
    ∧ (classifyBest nouns verbs).2 = min 1 ((M : ℚ) / 3) := by
  subst hM
  refine ⟨fun h0 => ?_, fun hpos => ?_, ?_⟩
  · show (classifyFold (grammarText nouns verbs) categoriesTable ("general", 0)).1 = "general"
    rw [classifyFold_stay _ _ _ _ h0]
  · exact classifyFold_find (grammarText nouns verbs) categoriesTable "general" 0 hpos
  · show min 1 (((classifyFold (grammarText nouns verbs) categoriesTable ("general", 0)).2 : ℚ) / 3)
        = min 1 ((maxTableScore (grammarText nouns verbs) categoriesTable : ℚ) / 3)
    rw [classifyFold_snd]
    rfl

/-- C4 (code bug): the claim's scoring rule — most keyword hits wins,
first-in-table tiebreak, confidence `min(1, hits/3)`, `"general"` on no
hits — is exactly what the scoring loop computes (at nouns
`["software", "tech"]`, verbs `["learn"]`: winner `"technology"` with
confidence `min(1, 2/3)`), but `classifyContent` never returns that result:
its return object's `alternatives` property calls the undefined
`this.getAlternativeCategories` and every invocation raises `TypeError`,
so the pipeline's category is always the fallback `"general"`/0.3. -/
theorem classifyContent_raises_despite_argmax :
    classifyContent ["software", "tech"] ["learn"] = Except.error JsErr.typeError
    ∧ (classifyBest ["software", "tech"] ["learn"]).1 = "technology"
    ∧ (classifyBest ["software", "tech"] ["learn"]).2 = min 1 (((2 : ℕ) : ℚ) / 3) := by
  have h := classifyBest_argmax ["software", "tech"] ["learn"] 2 (by decide)
  have h2 := h.2.1 (by decide)
  have he : (categoriesTable.find?
      (fun p => categoryScore (grammarText ["software", "tech"] ["learn"]) p.2 == 2)).map
        Prod.fst = some "technology" := by decide
  exact ⟨rfl, (Option.some.inj (he.symm.trans h2)).symm, h.2.2⟩

/-! ## Interest tracking (`PersonalizationEngine`, part_003 lines 214–300) -/

/-- One entry of an interest's `evolution` history. -/
structure EvolutionEntry where
  timestamp : ℕ
  strength : ℚ
  context : Option String
  deriving DecidableEq

/-- One record of the `interests` store: `{topic, strength, evolution,
lastUpdated}`; `topic` is the lookup key. -/
structure Interest where
  topic : String
  strength : ℚ
  evolution : List EvolutionEntry
  lastUpdated : ℕ
  deriving DecidableEq

/-- The fields of the `analysis` argument consumed by `updateInterests`. -/
structure AnalysisIn where
  keywords : List String
  category : Option String
  engagement : Option ℚ
  relevance : Option ℚ
  deriving DecidableEq

/-- `calculateNewInterestStrength` (lines 291–300):
`Math.min(1.0, currentStrength * 0.95 + engagement * relevance * 0.1)`. -/
def calculateNewInterestStrength (currentStrength engagement relevance : ℚ) : ℚ :=
  min 1 (currentStrength * 0.95 + engagement * relevance * 0.1)

/-- Dexie's `update(existingInterest.id, changes)`: rewrite the first record
matching the key (the record `find?` returned), leave the rest alone. -/
def updateFirst (p : α → Bool) (f : α → α) : List α → List α
  | [] => []
  | a :: as => if p a then f a :: as else a :: updateFirst p f as

/-- The per-keyword body of `updateInterests` (lines 220–256), applied to
the already lower-cased keyword `t`: reinforce the first existing record
with that topic, else add a fresh record with strength `engagement * 0.3`. -/
def keywordStep (now : ℕ) (e rel : ℚ) (cat : Option String)
    (db : List Interest) (t : String) : List Interest :=
  match db.find? (fun i => i.topic == t) with
  | some i =>
      let ns := calculateNewInterestStrength i.strength e rel
      updateFirst (fun j => j.topic == t)
        (fun j => { j with strength := ns, lastUpdated := now,
                           evolution := i.evolution ++ [⟨now, ns, cat⟩] }) db
  | none =>
      db ++ [{ topic := t, strength := e * 0.3,
               evolution := [⟨now, e * 0.3, cat⟩], lastUpdated := now }]

/-- The category branch of `updateInterests` (lines 258–288), applied to the
already lower-cased category `c`: reinforce with the fixed relevance `0.7`
(without appending to `evolution`), else add a fresh record with strength
`engagement * 0.5`. -/
def categoryStep (now : ℕ) (e : ℚ) (db : List Interest) (c : String) : List Interest :=
  match db.find? (fun i => i.topic == c) with
  | some i =>
      let ns := calculateNewInterestStrength i.strength e 0.7
      updateFirst (fun j => j.topic == c)
        (fun j => { j with strength := ns, lastUpdated := now }) db
  | none =>
      db ++ [{ topic := c, strength := e * 0.5,
               evolution := [⟨now, e * 0.5, some "category"⟩], lastUpdated := now }]

/-- `updateInterests` (lines 214–289): process every keyword in order, then
the category when it is truthy.  `engagement = analysis.engagement || 0.5`,
keyword relevance `= analysis.relevance || 0.5`. -/
def updateInterests (now : ℕ) (a : AnalysisIn) (db : List Interest) : List Interest :=
  let e := jsOr a.engagement 0.5
  let rel := jsOr a.relevance 0.5
  let db1 := a.keywords.foldl (fun d kw => keywordStep now e rel a.category d (jsToLower kw)) db
  if jsTruthyStr a.category then categoryStep now e db1 (jsToLower (a.category.getD ""))
  else db1

/-- A whole browsing session: fold `updateInterests` over a list of
analyses (one per page visit). -/
def applyVisits (now : ℕ) (visits : List AnalysisIn) (db : List Interest) : List Interest :=
  visits.foldl (fun d a => updateInterests now a d) db

/-- The strength stored for topic `t` (via the store's first-match lookup). -/
def strengthOf (db : List Interest) (t : String) : Option ℚ :=
  (db.find? (fun i => i.topic == t)).map Interest.strength

/-- Every stored strength lies in `[0,1]`. -/
def StrengthInv (db : List Interest) : Prop :=
  ∀ i ∈ db, 0 ≤ i.strength ∧ i.strength ≤ 1

theorem calculateNewInterestStrength_bounds {s e r : ℚ}
    (hs0 : 0 ≤ s) (he : 0 ≤ e) (hr : 0 ≤ r) :
    0 ≤ calculateNewInterestStrength s e r ∧ calculateNewInterestStrength s e r ≤ 1 := by
  constructor
  · apply le_min (by norm_num)
    positivity
  · exact min_le_left _ _

/-- On nonnegative inputs, the source's `Math.min(1.0, ·)` agrees with the
spec's two-sided `clamp(·, 0, 1)`. -/
theorem calculateNewInterestStrength_eq_clamp {s e r : ℚ}
    (hs0 : 0 ≤ s) (he : 0 ≤ e) (hr : 0 ≤ r) :
    calculateNewInterestStrength s e r = clamp01 (s * 0.95 + e * r * 0.1) := by
  rw [calculateNewInterestStrength, clamp01]
  rw [max_eq_right]
  exact le_min (by norm_num) (by positivity)

theorem mem_updateFirst {p : α → Bool} {f : α → α} :
    ∀ {l : List α} {x : α}, x ∈ updateFirst p f l → x ∈ l ∨ ∃ y ∈ l, x = f y := by
  intro l
  induction l with
  | nil => intro x hx; exact absurd hx (List.not_mem_nil x)
  | cons a as ih =>
      intro x hx
      by_cases ha : p a
      · simp only [updateFirst, ha, if_pos] at hx
        rcases List.mem_cons.mp hx with h | h
        · exact Or.inr ⟨a, List.mem_cons_self a as, h⟩
        · exact Or.inl (List.mem_cons_of_mem a h)
      · simp only [updateFirst, ha, if_neg, not_false_iff] at hx
        rcases List.mem_cons.mp hx with h | h
        · exact Or.inl (h ▸ List.mem_cons_self a as)
        · rcases ih h with h' | ⟨y, hy, hxy⟩
          · exact Or.inl (List.mem_cons_of_mem a h')
          · exact Or.inr ⟨y, List.mem_cons_of_mem a hy, hxy⟩

theorem keywordStep_inv {now : ℕ} {e rel : ℚ} {cat : Option String}
    {db : List Interest} {t : String}
    (hinv : StrengthInv db) (he0 : 0 ≤ e) (he1 : e ≤ 1) (hr : 0 ≤ rel) :
    StrengthInv (keywordStep now e rel cat db t) := by
  intro i hi
  rw [keywordStep] at hi
  cases hfind : db.find? (fun j => j.topic == t) with
  | some j =>
      rw [hfind] at hi
      have hj := hinv j (List.mem_of_find?_eq_some hfind)
      rcases mem_updateFirst hi with h | ⟨y, hy, hxy⟩
      · exact hinv i h
      · have hyb := hinv y hy
        subst hxy
        exact calculateNewInterestStrength_bounds hj.1 he0 hr
  | none =>
      rw [hfind] at hi
      rcases List.mem_append.mp hi with h | h
      · exact hinv i h
      · rcases List.mem_singleton.mp h with rfl
        constructor
        · positivity
        · calc e * 0.3 ≤ 1 * 0.3 := by nlinarith
            _ ≤ 1 := by norm_num

theorem categoryStep_inv {now : ℕ} {e : ℚ} {db : List Interest} {c : String}
    (hinv : StrengthInv db) (he0 : 0 ≤ e) (he1 : e ≤ 1) :
    StrengthInv (categoryStep now e db c) := by
  intro i hi
  rw [categoryStep] at hi
  cases hfind : db.find? (fun j => j.topic == c) with
  | some j =>
      rw [hfind] at hi
      have hj := hinv j (List.mem_of_find?_eq_some hfind)
      rcases mem_updateFirst hi with h | ⟨y, hy, hxy⟩
      · exact hinv i h
      · subst hxy
        exact calculateNewInterestStrength_bounds hj.1 he0 (by norm_num)
  | none =>
      rw [hfind] at hi
      rcases List.mem_append.mp hi with h | h
      · exact hinv i h
      · rcases List.mem_singleton.mp h with rfl
        constructor
        · positivity
        · calc e * 0.5 ≤ 1 * 0.5 := by nlinarith
            _ ≤ 1 := by norm_num

theorem updateInterests_inv {now : ℕ} {a : AnalysisIn} {db : List Interest}
    (hinv : StrengthInv db)
    (he0 : 0 ≤ jsOr a.engagement 0.5) (he1 : jsOr a.engagement 0.5 ≤ 1)
    (hr : 0 ≤ jsOr a.relevance 0.5) :
    StrengthInv (updateInterests now a db) := by
  rw [updateInterests]
  have hfold : ∀ (kws : List String) (d : List Interest), StrengthInv d →
      StrengthInv (kws.foldl
        (fun d' kw => keywordStep now (jsOr a.engagement 0.5) (jsOr a.relevance 0.5)
          a.category d' (jsToLower kw)) d) := by
    intro kws
    induction kws with
    | nil => intro d hd; exact hd
    | cons kw rest ih =>
        intro d hd
        exact ih _ (keywordStep_inv hd he0 he1 hr)
  by_cases hcat : jsTruthyStr a.category
  · simp only [hcat, if_pos]
    exact categoryStep_inv (hfold a.keywords db hinv) he0 he1
  · simp only [hcat, if_neg, not_false_iff]
    exact hfold a.keywords db hinv

/-- C1: along every sequence of page-visit updates whose engagement value
(`analysis.engagement || 0.5`, the clamped score of the engagement
predictor) and keyword relevance (`analysis.relevance || 0.5`) are in range,
every stored `Interest.strength` stays within `[0,1]` at all times — after
every prefix of the sequence — both at creation (`engagement·0.3` /
`engagement·0.5`) and under reinforcement by
`calculateNewInterestStrength`. -/
theorem interest_strength_always_in_unit_interval
    (now : ℕ) (visits : List AnalysisIn) (db : List Interest)
    (hdb : StrengthInv db)
    (hv : ∀ a ∈ visits, 0 ≤ jsOr a.engagement 0.5 ∧ jsOr a.engagement 0.5 ≤ 1
            ∧ 0 ≤ jsOr a.relevance 0.5) :
    ∀ n : ℕ, StrengthInv (applyVisits now (visits.take n) db) := by
  intro n
  have hsub : ∀ a ∈ visits.take n, 0 ≤ jsOr a.engagement 0.5 ∧ jsOr a.engagement 0.5 ≤ 1
      ∧ 0 ≤ jsOr a.relevance 0.5 :=
    fun a ha => hv a (List.mem_of_mem_take ha)
  revert hsub hdb
  generalize visits.take n = pre
  intro hdb hsub
  induction pre generalizing db with
  | nil => exact hdb
  | cons a rest ih =>
      have ha := hsub a (List.mem_cons_self a rest)
      exact ih (updateInterests now a db) (updateInterests_inv hdb ha.1 ha.2.1 ha.2.2)
        (fun b hb => hsub b (List.mem_cons_of_mem a hb))

/-- Witness for `interest_strength_always_in_unit_interval`: two concrete
technology visits starting from the empty profile. -/
theorem interest_strength_always_in_unit_interval_witness :
    StrengthInv (applyVisits 0
      ((([⟨["Tech", "Software"], some "Technology", some 0.8, none⟩,
          ⟨["Tech"], some "Technology", some 0.9, none⟩] : List AnalysisIn)).take 2) []) :=
  interest_strength_always_in_unit_interval 0
    [⟨["Tech", "Software"], some "Technology", some 0.8, none⟩,
     ⟨["Tech"], some "Technology", some 0.9, none⟩] []
    (by intro i hi; exact absurd hi (List.not_mem_nil i))
    (by
      intro a ha
      rcases List.mem_cons.mp ha with rfl | ha'
      · refine ⟨by norm_num [jsOr], by norm_num [jsOr], by norm_num [jsOr]⟩
      · rcases List.mem_cons.mp ha' with rfl | ha''
        · refine ⟨by norm_num [jsOr], by norm_num [jsOr], by norm_num [jsOr]⟩
        · exact absurd ha'' (List.not_mem_nil a))
    2

/-- If the first match is `i`, rewriting it in place makes the first match
`f i` (provided `f` preserves the predicate). -/
theorem find?_updateFirst_found {p : α → Bool} {f : α → α}
    (hf : ∀ x, p x = true → p (f x) = true) :
    ∀ {l : List α} {i : α}, l.find? p = some i → (updateFirst p f l).find? p = some (f i) := by
  intro l
  induction l with
  | nil => intro i h; simp at h
  | cons a as ih =>
      intro i h
      by_cases ha : p a
      · rw [List.find?_cons_of_pos _ ha] at h
        injection h with h
        subst h
        rw [updateFirst, if_pos ha, List.find?_cons_of_pos _ (hf a ha)]
      · rw [List.find?_cons_of_neg _ (by simp [ha])] at h
        rw [updateFirst, if_neg ha, List.find?_cons_of_neg _ (by simp [ha])]
        exact ih h

/-- Rewriting records that match `q` leaves lookups under a disjoint
predicate `p` unchanged. -/
theorem find?_updateFirst_other {p q : α → Bool} {f : α → α}
    (h : ∀ x, q x = true → p x = false ∧ p (f x) = false) :
    ∀ l : List α, (updateFirst q f l).find? p = l.find? p := by
  intro l
  induction l with
  | nil => rfl
  | cons a as ih =>
      by_cases ha : q a
      · rw [updateFirst, if_pos ha, List.find?_cons_of_neg _ (by simp [(h a ha).2]),
          List.find?_cons_of_neg _ (by simp [(h a ha).1])]
      · rw [updateFirst, if_neg ha]
        by_cases hpa : p a
        · rw [List.find?_cons_of_pos _ hpa, List.find?_cons_of_pos _ hpa]
        · rw [List.find?_cons_of_neg _ (by simp [hpa]), List.find?_cons_of_neg _ (by simp [hpa])]
          exact ih

/-- C2: a visit whose analysis carries no explicit relevance field
reinforces an existing interest at topic `t` to exactly
`clamp(old·0.95 + engagement·0.5·0.1, 0, 1)` (keyword evidence) or
`clamp(old·0.95 + engagement·0.7·0.1, 0, 1)` (category evidence), and
creates an absent interest with initial strength `engagement·0.3` (keyword)
or `engagement·0.5` (category). -/
theorem interest_update_rule (now : ℕ) (e : ℚ) (cat : Option String)
    (db : List Interest) (t : String) (he : 0 ≤ e) :
    (∀ i, db.find? (fun j => j.topic == t) = some i → 0 ≤ i.strength →
        strengthOf (keywordStep now e (jsOr none 0.5) cat db t) t
          = some (clamp01 (i.strength * 0.95 + e * 0.5 * 0.1)))
    ∧ (db.find? (fun j => j.topic == t) = none →
        strengthOf (keywordStep now e (jsOr none 0.5) cat db t) t = some (e * 0.3))
    ∧ (∀ i, db.find? (fun j => j.topic == t) = some i → 0 ≤ i.strength →
        strengthOf (categoryStep now e db t) t
          = some (clamp01 (i.strength * 0.95 + e * 0.7 * 0.1)))
    ∧ (db.find? (fun j => j.topic == t) = none →
        strengthOf (categoryStep now e db t) t = some (e * 0.5)) := by
  have hrel : jsOr none 0.5 = (0.5 : ℚ) := rfl
  refine ⟨?_, ?_, ?_, ?_⟩
  · intro i hfind hi0
    simp only [keywordStep, hfind, strengthOf]
    rw [find?_updateFirst_found ?hp1 hfind, Option.map_some']
    case hp1 => exact fun x hx => hx
    show some (calculateNewInterestStrength i.strength e (jsOr none 0.5)) = _
    rw [hrel, calculateNewInterestStrength_eq_clamp hi0 he (by norm_num)]
  · intro hfind
    simp only [keywordStep, hfind, strengthOf]
    rw [List.find?_append, hfind, Option.none_or, List.find?_cons_of_pos _ (by simp)]
    rfl
  · intro i hfind hi0
    simp only [categoryStep, hfind, strengthOf]
    rw [find?_updateFirst_found ?hp2 hfind, Option.map_some']
    case hp2 => exact fun x hx => hx
    show some (calculateNewInterestStrength i.strength e 0.7) = _
    rw [calculateNewInterestStrength_eq_clamp hi0 he (by norm_num)]
  · intro hfind
    simp only [categoryStep, hfind, strengthOf]
    rw [List.find?_append, hfind, Option.none_or, List.find?_cons_of_pos _ (by simp)]
    rfl

/-- Witness for `interest_update_rule`: a stored `"tech"` interest at
strength `1/2` is reinforced by an engagement-`0.8` keyword visit to
`clamp(0.5·0.95 + 0.8·0.5·0.1)`, and an absent `"food"` interest is created
at `0.8·0.3`. -/
theorem interest_update_rule_witness :
    (strengthOf (keywordStep 7 0.8 (jsOr none 0.5) (some "technology")
        [⟨"tech", 1/2, [], 0⟩] "tech") "tech"
      = some (clamp01 ((1/2) * 0.95 + 0.8 * 0.5 * 0.1)))
    ∧ (strengthOf (keywordStep 7 0.8 (jsOr none 0.5) (some "technology")
        [⟨"tech", 1/2, [], 0⟩] "food") "food" = some (0.8 * 0.3)) :=
  ⟨(interest_update_rule 7 0.8 (some "technology") [⟨"tech", 1/2, [], 0⟩] "tech"
      (by norm_num)).1 ⟨"tech", 1/2, [], 0⟩ rfl (by norm_num),
   (interest_update_rule 7 0.8 (some "technology") [⟨"tech", 1/2, [], 0⟩] "food"
      (by norm_num)).2.1 rfl⟩

/-- A visit's analysis carries no reinforcing evidence for topic `t`: no
keyword lower-cases to `t` and the (truthy) category does not either. -/
def NoEvidence (a : AnalysisIn) (t : String) : Prop :=
  (∀ kw ∈ a.keywords, jsToLower kw ≠ t)
  ∧ (jsTruthyStr a.category = true → jsToLower (a.category.getD "") ≠ t)

instance (a : AnalysisIn) (t : String) : Decidable (NoEvidence a t) := by
  rw [NoEvidence]
  infer_instance

theorem keywordStep_preserves {now : ℕ} {e rel : ℚ} {cat : Option String}
    {db : List Interest} {t' t : String} (hne : t' ≠ t) :
    strengthOf (keywordStep now e rel cat db t') t = strengthOf db t := by
  have hdisj : ∀ x : Interest, (x.topic == t') = true → (x.topic == t) = false := by
    intro x hx
    rw [beq_iff_eq] at hx
    rw [beq_eq_false_iff_ne, hx]
    exact hne
  cases hfind : db.find? (fun i => i.topic == t') with
  | some i =>
      simp only [keywordStep, hfind, strengthOf]
      rw [find?_updateFirst_other ?hd1]
      case hd1 => exact fun x hx => ⟨hdisj x hx, hdisj x hx⟩
  | none =>
      simp only [keywordStep, hfind, strengthOf]
      rw [List.find?_append, List.find?_cons_of_neg _ (by simp [hne]), List.find?_nil,
        Option.or_none]

theorem categoryStep_preserves {now : ℕ} {e : ℚ} {db : List Interest}
    {c t : String} (hne : c ≠ t) :
    strengthOf (categoryStep now e db c) t = strengthOf db t := by
  have hdisj : ∀ x : Interest, (x.topic == c) = true → (x.topic == t) = false := by
    intro x hx
    rw [beq_iff_eq] at hx
    rw [beq_eq_false_iff_ne, hx]
    exact hne
  cases hfind : db.find? (fun i => i.topic == c) with
  | some i =>
      simp only [categoryStep, hfind, strengthOf]
      rw [find?_updateFirst_other ?hd2]
      case hd2 => exact fun x hx => ⟨hdisj x hx, hdisj x hx⟩
  | none =>
      simp only [categoryStep, hfind, strengthOf]
      rw [List.find?_append, List.find?_cons_of_neg _ (by simp [hne]), List.find?_nil,
        Option.or_none]

theorem updateInterests_preserves {now : ℕ} {a : AnalysisIn} {db : List Interest}
    {t : String} (h : NoEvidence a t) :
    strengthOf (updateInterests now a db) t = strengthOf db t := by
  rw [updateInterests]
  have hfold : ∀ (kws : List String), (∀ kw ∈ kws, jsToLower kw ≠ t) → ∀ d : List Interest,
      strengthOf (kws.foldl
        (fun d' kw => keywordStep now (jsOr a.engagement 0.5) (jsOr a.relevance 0.5)
          a.category d' (jsToLower kw)) d) t = strengthOf d t := by
    intro kws
    induction kws with
    | nil => intro _ d; rfl
    | cons kw rest ih =>
        intro hk d
        rw [List.foldl_cons, ih (fun b hb => hk b (List.mem_cons_of_mem kw hb)),
          keywordStep_preserves (hk kw (List.mem_cons_self kw rest))]
  by_cases hcat : jsTruthyStr a.category
  · simp only [hcat, if_pos]
    rw [categoryStep_preserves (h.2 hcat), hfold a.keywords h.1 db]
  · simp only [hcat, if_neg, not_false_iff]
    exact hfold a.keywords h.1 db

/-- Over a whole sequence of visits none of which mentions topic `t`, the
stored strength of `t` is untouched. -/
theorem applyVisits_preserves {now : ℕ} {t : String} :
    ∀ (visits : List AnalysisIn) (db : List Interest),
      (∀ a ∈ visits, NoEvidence a t) →
      strengthOf (applyVisits now visits db) t = strengthOf db t
  | [], db, _ => rfl
  | a :: rest, db, h => by
      show strengthOf (applyVisits now rest (updateInterests now a db)) t = strengthOf db t
      rw [applyVisits_preserves rest (updateInterests now a db)
          (fun b hb => h b (List.mem_cons_of_mem a hb)),
        updateInterests_preserves (h a (List.mem_cons_self a rest))]

/-- C7 (amended): an interest that receives no reinforcing evidence over any
number of further visits is never touched by `updateInterests`: its stored
strength stays exactly constant across the sequence (hence it is
non-increasing and never drops below its old value or below 0, but it does
NOT strictly decrease — the decay factor `0.95` is applied only inside
`calculateNewInterestStrength`, i.e. only when the interest is reinforced). -/
theorem interest_without_evidence_constant (now : ℕ) (t : String)
    (visits : List AnalysisIn) (db : List Interest)
    (h : ∀ a ∈ visits, NoEvidence a t) :
    strengthOf (applyVisits now visits db) t = strengthOf db t :=
  applyVisits_preserves visits db h

/-- Witness for `interest_without_evidence_constant`: a single food visit
leaves the stored `"technology"` strength at exactly `0.8`. -/
theorem interest_without_evidence_constant_witness :
    strengthOf (applyVisits 0 [⟨["recipe"], some "food", some 0.8, none⟩]
        [⟨"technology", 0.8, [], 0⟩]) "technology"
      = strengthOf [⟨"technology", 0.8, [], 0⟩] "technology" :=
  interest_without_evidence_constant 0 "technology"
    [⟨["recipe"], some "food", some 0.8, none⟩] [⟨"technology", 0.8, [], 0⟩]
    (by
      intro a ha
      rcases List.mem_cons.mp ha with rfl | ha'
      · exact ⟨by decide, by decide⟩
      · exact absurd ha' (List.not_mem_nil a))

/-- Counterexample to C7's Scenario B: starting from a `"technology"`
interest of strength `0.8`, fifty visits to an unrelated category
(`"food"`, keyword `"recipe"`) leave the `"technology"` strength at exactly
`0.8` — it does not strictly decrease. -/
theorem interest_decay_scenarioB_counterexample :
    strengthOf (applyVisits 0
        (List.replicate 50 (⟨["recipe"], some "food", some 0.8, none⟩ : AnalysisIn))
        [⟨"technology", 0.8, [], 0⟩]) "technology"
      = some 0.8
    ∧ ¬ ((strengthOf (applyVisits 0
          (List.replicate 50 (⟨["recipe"], some "food", some 0.8, none⟩ : AnalysisIn))
          [⟨"technology", 0.8, [], 0⟩]) "technology").getD 0
        < (strengthOf [⟨"technology", 0.8, [], 0⟩] "technology").getD 0) := by
  have h : strengthOf (applyVisits 0
      (List.replicate 50 (⟨["recipe"], some "food", some 0.8, none⟩ : AnalysisIn))
      [⟨"technology", 0.8, [], 0⟩]) "technology"
      = strengthOf [⟨"technology", 0.8, [], 0⟩] "technology" := by
    apply applyVisits_preserves
    intro a ha
    rw [List.eq_of_mem_replicate ha]
    exact ⟨by decide, by decide⟩
  have hbase : strengthOf [⟨"technology", (0.8 : ℚ), [], 0⟩] "technology" = some 0.8 := rfl
  refine ⟨by rw [h, hbase], ?_⟩
  rw [h, hbase]
  norm_num

/-! ## Mood inference (`RealTimeAnalyzer.inferUserMood`, lines 631–669) -/

/-- The metrics record returned by `getRecentBehaviorMetrics`. -/
structure BehaviorMetrics where
  averageTimeSpent : ℚ
  engagementLevel : ℚ
  pageJumpRate : ℚ
  interactionFrequency : ℚ
  deriving DecidableEq

/-- `getRecentBehaviorMetrics` (lines 705–713) is a placeholder returning
fixed values; it reads no interaction telemetry at all. -/
def getRecentBehaviorMetrics : BehaviorMetrics :=
  ⟨180, 0.6, 0.4, 0.5⟩

/-- One entry of `this.userMoodHistory`. -/
structure MoodSample where
  timestamp : ℕ
  mood : String
  confidence : ℚ
  factors : BehaviorMetrics
  deriving DecidableEq

/-- The mood/confidence selection cascade of `inferUserMood`
(lines 637–653). -/
def moodRule (b : BehaviorMetrics) (timeOfDay dayOfWeek : ℕ) : String × ℚ :=
  if b.averageTimeSpent > 300 ∧ b.engagementLevel > 0.7 then ("focused", 0.8)
  else if b.pageJumpRate > 0.8 then ("restless", 0.7)
  else if 9 ≤ timeOfDay ∧ timeOfDay ≤ 17 ∧ 1 ≤ dayOfWeek ∧ dayOfWeek ≤ 5 then
    ("productive", 0.6)
  else if 18 ≤ timeOfDay ∧ timeOfDay ≤ 22 then ("relaxed", 0.6)
  else ("neutral", 0.5)

/-- `inferUserMood`: select a mood from the (fixed) behavior metrics and the
clock, push one sample onto `userMoodHistory`, and keep only the most
recent 50 samples (`slice(-50)`).  Returns the new history and the
`{mood, confidence}` result. -/
def inferUserMood (history : List MoodSample) (now timeOfDay dayOfWeek : ℕ) :
    List MoodSample × String × ℚ :=
  let b := getRecentBehaviorMetrics
  let mc := moodRule b timeOfDay dayOfWeek
  let pushed := history ++ [⟨now, mc.1, mc.2, b⟩]
  let kept := if pushed.length > 50 then pushed.drop (pushed.length - 50) else pushed
  (kept, mc.1, mc.2)

/-- C8: every mood inference appends exactly one `MoodSample`; afterwards
the history holds at most 50 samples — exactly `min (old + 1) 50` — and
what is retained is the new sample preceded by a suffix of the old history
(oldest evicted first). -/
theorem mood_history_bounded (history : List MoodSample) (now timeOfDay dayOfWeek : ℕ) :
    (inferUserMood history now timeOfDay dayOfWeek).1.length ≤ 50
    ∧ (inferUserMood history now timeOfDay dayOfWeek).1.length = min (history.length + 1) 50
    ∧ ∃ keep : List MoodSample,
        (inferUserMood history now timeOfDay dayOfWeek).1
            = keep ++ [⟨now, (moodRule getRecentBehaviorMetrics timeOfDay dayOfWeek).1,
                        (moodRule getRecentBehaviorMetrics timeOfDay dayOfWeek).2,
                        getRecentBehaviorMetrics⟩]
          ∧ List.IsSuffix keep history := by
  set s : MoodSample := ⟨now, (moodRule getRecentBehaviorMetrics timeOfDay dayOfWeek).1,
    (moodRule getRecentBehaviorMetrics timeOfDay dayOfWeek).2, getRecentBehaviorMetrics⟩ with hs
  have hres : (inferUserMood history now timeOfDay dayOfWeek).1
      = if (history ++ [s]).length > 50
          then (history ++ [s]).drop ((history ++ [s]).length - 50)
          else history ++ [s] := rfl
  by_cases hlen : (history ++ [s]).length > 50
  · have hL : (history ++ [s]).length = history.length + 1 := by
      rw [List.length_append, List.length_singleton]
    have hk : (history ++ [s]).length - 50 ≤ history.length := by omega
    have hdrop : (history ++ [s]).drop ((history ++ [s]).length - 50)
        = history.drop ((history ++ [s]).length - 50) ++ [s] :=
      List.drop_append_of_le_length hk
    rw [hres, if_pos hlen, hdrop]
    refine ⟨?_, ?_, history.drop ((history ++ [s]).length - 50), rfl, List.drop_suffix _ _⟩
    · rw [List.length_append, List.length_singleton, List.length_drop]
      omega
    · rw [List.length_append, List.length_singleton, List.length_drop]
      omega
  · rw [hres, if_neg hlen]
    refine ⟨?_, ?_, history, rfl, List.suffix_refl _⟩
    · rw [List.length_append, List.length_singleton] at hlen ⊢
      omega
    · rw [List.length_append, List.length_singleton] at hlen ⊢
      omega

/-! ## Attention pattern (`DataCollector.analyzeAttentionPattern`,
part_000 lines 1007–1021) -/

/-- One telemetry event of the interaction window. -/
structure InteractionEvent where
  timestamp : ℤ
  kind : String
  deriving DecidableEq

/-- `analyzeAttentionPattern`: with fewer than 5 events in the window the
explicit label `insufficient_data` is returned; otherwise the average
inter-event gap is bucketed. -/
def analyzeAttentionPattern (interactions : List InteractionEvent) : String :=
  if interactions.length < 5 then "insufficient_data"
  else
    let timeGaps := (interactions.zip interactions.tail).map
      (fun p => ((p.2.timestamp - p.1.timestamp : ℤ) : ℚ))
    let averageGap := timeGaps.sum / (timeGaps.length : ℚ)
    if averageGap < 2000 then "focused"
    else if averageGap < 5000 then "engaged"
    else if averageGap < 10000 then "moderate"
    else "distracted"

/-- Counterexample to C9: on an empty interaction window (0 < 5 events) the
mood inference of the analyzer still returns the guessed label `"neutral"`
— never `"insufficient_data"`.  (`inferUserMood` consumes no interaction
window at all: its metrics come from the fixed placeholder
`getRecentBehaviorMetrics`.) -/
theorem mood_insufficient_data_counterexample :
    (inferUserMood [] 0 3 0).2.1 = "neutral"
    ∧ (inferUserMood [] 0 3 0).2.1 ≠ "insufficient_data"
    ∧ analyzeAttentionPattern [] = "insufficient_data" := by
  have hmr : moodRule getRecentBehaviorMetrics 3 0 = ("neutral", 0.5) := by
    rw [moodRule, if_neg (by norm_num [getRecentBehaviorMetrics]),
      if_neg (by norm_num [getRecentBehaviorMetrics]),
      if_neg (by omega), if_neg (by omega)]
  have h1 : (inferUserMood [] 0 3 0).2.1 = "neutral" := by
    show (moodRule getRecentBehaviorMetrics 3 0).1 = "neutral"
    rw [hmr]
  refine ⟨h1, ?_, by decide⟩
  rw [h1]
  decide

/-- C9 (amended): mood inference always returns one of the guessed labels
`focused`/`restless`/`productive`/`relaxed`/`neutral` and never
`insufficient_data`, whatever the interaction window holds; the explicit
`insufficient_data` label for windows of fewer than 5 events is produced by
`DataCollector.analyzeAttentionPattern`, not by mood inference. -/
theorem mood_insufficient_data_attention (history : List MoodSample)
    (now timeOfDay dayOfWeek : ℕ) (interactions : List InteractionEvent) :
    ((inferUserMood history now timeOfDay dayOfWeek).2.1 ≠ "insufficient_data"
      ∧ (inferUserMood history now timeOfDay dayOfWeek).2.1
          ∈ (["focused", "restless", "productive", "relaxed", "neutral"] : List String))
    ∧ (interactions.length < 5 →
        analyzeAttentionPattern interactions = "insufficient_data") := by
  constructor
  · show (moodRule getRecentBehaviorMetrics timeOfDay dayOfWeek).1 ≠ "insufficient_data"
      ∧ (moodRule getRecentBehaviorMetrics timeOfDay dayOfWeek).1
          ∈ (["focused", "restless", "productive", "relaxed", "neutral"] : List String)
    rw [moodRule]
    split_ifs <;> exact ⟨by decide, by decide⟩
  · intro hlen
    rw [analyzeAttentionPattern, if_pos hlen]

/-- Witness for `mood_insufficient_data_attention`: the empty window has
fewer than 5 events and yields `insufficient_data` from the attention
analyzer, while mood inference at 3 a.m. on a Sunday guesses `neutral`. -/
theorem mood_insufficient_data_attention_witness :
    ((inferUserMood [] 0 3 0).2.1 ≠ "insufficient_data"
      ∧ (inferUserMood [] 0 3 0).2.1
          ∈ (["focused", "restless", "productive", "relaxed", "neutral"] : List String))
    ∧ analyzeAttentionPattern [] = "insufficient_data" :=
  ⟨(mood_insufficient_data_attention [] 0 3 0 []).1,
   (mood_insufficient_data_attention [] 0 3 0 []).2 (by decide)⟩

/-! ## The visit update pipeline (`PersonalizationEngine.updateFromPageVisit`,
part_003 lines 181–212)

The five store-mutating sub-updates run sequentially inside one
`try { ... } catch (error) { console.error(...) }` with no Dexie
transaction: a store failure mid-sequence aborts the remaining sub-updates
(the `catch` only logs) but does not roll back writes already committed.
Store availability is injected as `health : Fin 5 → Bool` (whether the
store accepts the i-th sub-update's writes); `checkAndRetrain` mutates no
store state and is omitted. -/

/-- JS `x || d` on a possibly-undefined string (empty string is falsy). -/
def jsOrStr (x : Option String) (d : String) : String :=
  match x with
  | none => d
  | some s => if s.isEmpty then d else s

/-- JS `x > d` where `x` may be `undefined` (`undefined > d` is false). -/
def jsGt (x : Option ℚ) (d : ℚ) : Bool :=
  match x with
  | none => false
  | some v => decide (d < v)

/-- The fields of `pageData` consumed by the visit pipeline. -/
structure PageData where
  url : String
  title : String
  timeSpent : Option ℚ
  deriving DecidableEq

/-- The analysis fields consumed by the personality- and preference-update
sub-steps (the interest-update fields live in `AnalysisIn`). -/
structure AnalysisRest where
  complexity : Option String
  sentiment : Option String
  format : Option String
  length : Option String
  hasImages : Bool
  hasInteractiveElements : Bool
  deriving DecidableEq

/-- The whole `analysis` object handed to `updateFromPageVisit`. -/
structure AnalysisFull where
  core : AnalysisIn
  rest : AnalysisRest
  deriving DecidableEq

/-- One row of the `interactions` store as written by `recordInteraction`
(the JSON payload and context flattened into fields). -/
structure InteractionRec where
  timestamp : ℕ
  kind : String
  url : String
  title : String
  category : Option String
  timeSpent : ℚ
  engagement : ℚ
  hour : ℕ
  dayOfWeek : ℕ
  deriving DecidableEq

/-- One row of the `behaviorPatterns` store as written by
`updateBehaviorPatterns` (the stringified snapshot flattened; `frequency`
is always 1 and `strength` always 1.0 — one fresh row per visit). -/
structure PatternRec where
  hour : ℕ
  dayOfWeek : ℕ
  sessionLength : ℚ
  category : Option String
  complexity : String
  format : String
  engagement : ℚ
  frequency : ℕ
  contextTimestamp : ℕ
  contextUrl : String
  strength : ℚ
  deriving DecidableEq

/-- One row of the `personalityTraits` store. -/
structure TraitRec where
  trait : String
  score : ℚ
  confidence : ℚ
  deriving DecidableEq

/-- A stored preference value is a string or a boolean. -/
inductive PrefVal where
  | str : String → PrefVal
  | boo : Bool → PrefVal
  deriving DecidableEq

/-- One row of the `preferences` store. -/
structure PrefRec where
  category : String
  preference : PrefVal
  weight : ℚ
  confidence : ℚ
  deriving DecidableEq

/-- The Dexie stores mutated by a page visit. -/
structure PDB where
  interactions : List InteractionRec
  interests : List Interest
  behaviorPatterns : List PatternRec
  personalityTraits : List TraitRec
  preferences : List PrefRec
  deriving DecidableEq

/-- The empty profile database. -/
def emptyPDB : PDB := ⟨[], [], [], [], []⟩

/-- Sub-update 1: `recordInteraction('page_visit', {...})` appends one row
to `interactions` (the in-memory `recentInteractions` mirror is not store
state and is omitted). -/
def recordInteractionU (now hour dow : ℕ) (pd : PageData) (a : AnalysisFull) (db : PDB) : PDB :=
  { db with interactions := db.interactions
      ++ [⟨now, "page_visit", pd.url, pd.title, a.core.category,
           jsOr pd.timeSpent 0, jsOr a.core.engagement 0.5, hour, dow⟩] }

/-- Sub-update 2: `updateInterests(analysis)` on the `interests` store. -/
def updateInterestsU (now : ℕ) (a : AnalysisFull) (db : PDB) : PDB :=
  { db with interests := updateInterests now a.core db.interests }

/-- Sub-update 3: `updateBehaviorPatterns` appends one pattern row. -/
def updateBehaviorPatternsU (now hour dow : ℕ) (pd : PageData) (a : AnalysisFull)
    (db : PDB) : PDB :=
  { db with behaviorPatterns := db.behaviorPatterns
      ++ [⟨hour, dow, jsOr pd.timeSpent 0, a.core.category,
           jsOrStr a.rest.complexity "medium", jsOrStr a.rest.format "article",
           jsOr a.core.engagement 0.5, 1, now, pd.url, 1⟩] }

/-- `inferPersonalityTraits` (lines 370–407): five Big-Five scores on a 0.5
baseline with additive category/complexity/dwell/sentiment bumps, in the
object's insertion order. -/
def inferPersonalityTraits (pd : PageData) (a : AnalysisFull) : List (String × ℚ) :=
  let o : ℚ := 0.5
    + (if a.core.category = some "education" ∨ a.core.category = some "arts" then 0.1 else 0)
    + (if a.rest.complexity = some "high" then 0.05 else 0)
  let c : ℚ := 0.5
    + (if a.core.category = some "productivity" ∨ a.core.category = some "business"
        then 0.1 else 0)
    + (if jsGt pd.timeSpent 300 then 0.05 else 0)
  let e : ℚ := 0.5
    + (if a.core.category = some "social" ∨ a.core.category = some "communication"
        then 0.1 else 0)
  let n : ℚ := 0.5
    + (if a.rest.sentiment = some "negative" ∨ a.core.category = some "news"
        then 0.05 else 0)
  [("openness", o), ("conscientiousness", c), ("extraversion", e),
   ("agreeableness", 0.5), ("neuroticism", n)]

/-- Per-trait body of `updatePersonalityInference`: blend 90/10 into an
existing row (confidence `min(1, old + 0.01)`) or insert with confidence
0.1. -/
def traitStep (db : List TraitRec) (t : String) (score : ℚ) : List TraitRec :=
  match db.find? (fun r => r.trait == t) with
  | some r =>
      updateFirst (fun j => j.trait == t)
        (fun j => { j with score := r.score * 0.9 + score * 0.1,
                           confidence := min 1 (r.confidence + 0.01) }) db
  | none => db ++ [⟨t, score, 0.1⟩]

/-- Sub-update 4: `updatePersonalityInference`. -/
def updatePersonalityInferenceU (pd : PageData) (a : AnalysisFull) (db : PDB) : PDB :=
  { db with personalityTraits :=
      (inferPersonalityTraits pd a).foldl (fun d p => traitStep d p.1 p.2) db.personalityTraits }

/-- The five preference observations of `updateContentPreferences`, in
insertion order. -/
def contentPreferencesOf (a : AnalysisFull) : List (String × PrefVal) :=
  [ ("format", .str (jsOrStr a.rest.format "article")),
    ("length", .str (jsOrStr a.rest.length "medium")),
    ("complexity", .str (jsOrStr a.rest.complexity "medium")),
    ("visualContent", .boo a.rest.hasImages),
    ("interactivity", .boo a.rest.hasInteractiveElements) ]

/-- Per-category body of `updateContentPreferences`: moving-average weight
`0.9·old + 0.1·(observation = stored ? 1 : 0)` and confidence
`min(1, old + 0.01)` on an existing row, else insert `(weight 0.1,
confidence 0.1)`; the stored preference value itself is never rewritten. -/
def prefStep (db : List PrefRec) (c : String) (v : PrefVal) : List PrefRec :=
  match db.find? (fun r => r.category == c) with
  | some r =>
      updateFirst (fun j => j.category == c)
        (fun j => { j with
          weight := r.weight * 0.9 + 0.1 * (if v = r.preference then 1 else 0),
          confidence := min 1 (r.confidence + 0.01) }) db
  | none => db ++ [⟨c, v, 0.1, 0.1⟩]

/-- Sub-update 5: `updateContentPreferences`. -/
def updateContentPreferencesU (a : AnalysisFull) (db : PDB) : PDB :=
  { db with preferences :=
      (contentPreferencesOf a).foldl (fun d p => prefStep d p.1 p.2) db.preferences }

/-- The five store-mutating sub-updates of `updateFromPageVisit`, in source
order. -/
def subUpdates (now hour dow : ℕ) (pd : PageData) (a : AnalysisFull) : List (PDB → PDB) :=
  [ recordInteractionU now hour dow pd a,
    updateInterestsU now a,
    updateBehaviorPatternsU now hour dow pd a,
    updatePersonalityInferenceU pd a,
    updateContentPreferencesU a ]

/-- `updateFromPageVisit`: run the five sub-updates in order inside one
try/catch.  When the store rejects sub-update `i` (`health i = false`) the
thrown error skips the remaining sub-updates; the `catch` only logs, so the
writes already committed stay and the function returns normally. -/
def updateFromPageVisit (health : Fin 5 → Bool) (now hour dow : ℕ)
    (pd : PageData) (a : AnalysisFull) (db : PDB) : PDB :=
  if health 0 = false then db else
  let db0 := recordInteractionU now hour dow pd a db
  if health 1 = false then db0 else
  let db1 := updateInterestsU now a db0
  if health 2 = false then db1 else
  let db2 := updateBehaviorPatternsU now hour dow pd a db1
  if health 3 = false then db2 else
  let db3 := updatePersonalityInferenceU pd a db2
  if health 4 = false then db3 else
  updateContentPreferencesU a db3

/-- Index of the first sub-update whose writes the store rejects (5 when
all succeed). -/
def firstUnhealthy (health : Fin 5 → Bool) : ℕ :=
  if health 0 = false then 0 else
  if health 1 = false then 1 else
  if health 2 = false then 2 else
  if health 3 = false then 3 else
  if health 4 = false then 4 else 5

/-- Apply the first `k` sub-updates unconditionally. -/
def applyFirstK (k : ℕ) (now hour dow : ℕ) (pd : PageData) (a : AnalysisFull)
    (db : PDB) : PDB :=
  ((subUpdates now hour dow pd a).take k).foldl (fun d f => f d) db

/-- C3 (amended): a page-visit update is not transactional.  The result of
`updateFromPageVisit` is the state after applying, in source order, exactly
the sub-updates that precede the first store failure: on an error the
remaining sub-updates are skipped (and the error is only logged — the
function still returns), but the sub-updates already committed are NOT
rolled back.  Only when every sub-update succeeds does the full update set
apply. -/
theorem updateFromPageVisit_applies_longest_healthy_prefix
    (health : Fin 5 → Bool) (now hour dow : ℕ) (pd : PageData) (a : AnalysisFull)
    (db : PDB) :
    updateFromPageVisit health now hour dow pd a db
      = applyFirstK (firstUnhealthy health) now hour dow pd a db := by
  by_cases h0 : health 0 = false
  · simp [updateFromPageVisit, firstUnhealthy, applyFirstK, subUpdates, h0]
  · by_cases h1 : health 1 = false
    · simp [updateFromPageVisit, firstUnhealthy, applyFirstK, subUpdates, h0, h1]
    · by_cases h2 : health 2 = false
      · simp [updateFromPageVisit, firstUnhealthy, applyFirstK, subUpdates, h0, h1, h2]
      · by_cases h3 : health 3 = false
        · simp [updateFromPageVisit, firstUnhealthy, applyFirstK, subUpdates, h0, h1, h2, h3]
        · by_cases h4 : health 4 = false
          · simp [updateFromPageVisit, firstUnhealthy, applyFirstK, subUpdates,
              h0, h1, h2, h3, h4]
          · simp [updateFromPageVisit, firstUnhealthy, applyFirstK, subUpdates,
              h0, h1, h2, h3, h4]

/-- A store that rejects the writes of sub-update 1 (`updateInterests`) and
accepts all others. -/
def failInterestsHealth : Fin 5 → Bool := fun i => !(i == 1)

/-- A concrete page visit. -/
def samplePage : PageData := ⟨"https://example.com", "Example", some 120⟩

/-- A concrete analysis for that visit. -/
def sampleAnalysis : AnalysisFull :=
  ⟨⟨["tech"], some "technology", some 0.8, none⟩,
   ⟨none, none, none, none, false, false⟩⟩

/-- Counterexample to C3: when the store rejects sub-update 1, a sub-update
of the visit fails, yet the resulting state is neither the untouched
profile (the interaction row from sub-update 0 persists) nor the fully
updated one — the visit is applied partially, contradicting "either the
full update set for a visit applies or none does". -/
theorem updateFromPageVisit_not_atomic_counterexample :
    failInterestsHealth 1 = false
    ∧ (updateFromPageVisit failInterestsHealth 0 10 2 samplePage sampleAnalysis
          emptyPDB).interactions.length = 1
    ∧ (updateFromPageVisit failInterestsHealth 0 10 2 samplePage sampleAnalysis
          emptyPDB).interests = []
    ∧ updateFromPageVisit failInterestsHealth 0 10 2 samplePage sampleAnalysis emptyPDB
        ≠ emptyPDB
    ∧ updateFromPageVisit failInterestsHealth 0 10 2 samplePage sampleAnalysis emptyPDB
        ≠ applyFirstK 5 0 10 2 samplePage sampleAnalysis emptyPDB := by
  have hL : (updateFromPageVisit failInterestsHealth 0 10 2 samplePage sampleAnalysis
      emptyPDB).interests = [] := by decide
  have hR : (applyFirstK 5 0 10 2 samplePage sampleAnalysis emptyPDB).interests ≠ [] := by
    decide
  exact ⟨by decide, by decide, hL, by decide, fun h => hR (h ▸ hL)⟩

/-! ## Page analysis with fallback (`RealTimeAnalyzer.analyzePage`,
lines 155–203, and `createFallbackAnalysis`, lines 765–781) -/

/-- The fields of `pageData` consumed by `analyzePage`. -/
structure PageInput where
  url : String
  title : String
  content : String
  description : String
  deriving DecidableEq

/-- The shape of an analysis result, restricted to the fields the fallback
object carries (the only analysis object the source can actually build —
see `analyzePageInner`). -/
structure Analysis where
  url : String
  categoryPrimary : String
  categoryConfidence : ℚ
  languagePrimary : String
  languageConfidence : ℚ
  readabilityDifficulty : String
  fleschScore : ℚ
  topics : List String
  keywords : List String
  engagementScore : ℚ
  engagementPrediction : String
  sentimentPolarity : String
  sentimentIntensity : ℚ
  overallScore : ℚ
  error : Bool
  deriving DecidableEq

/-- `createFallbackAnalysis` (lines 765–781): the degraded low-confidence
result, flagged with `error: true`. -/
def createFallbackAnalysis (pd : PageInput) : Analysis :=
  ⟨pd.url, "general", 0.3, "english", 0.5, "medium", 50, [], [], 0.5, "medium",
   "neutral", 0, 0.5, true⟩

/-- The body of the `try` block of `analyzePage`.  `extract` stands for the
external `compromise` NLP library producing the noun/verb lists from
`content + ' ' + title + ' ' + description`.  Classification raises (see
`getAlternativeCategoriesE`); the later steps of the block call further
helpers equally absent from the source (`assessContentQuality`,
`calculateMediaRichness`, ...), summarized by the trailing `TypeError`. -/
def analyzePageInner (extract : String → List String × List String)
    (pd : PageInput) : Except JsErr Analysis := do
  let nv := extract (pd.content ++ " " ++ pd.title ++ " " ++ pd.description)
  let _cat ← classifyContent nv.1 nv.2
  Except.error JsErr.typeError

/-- `analyzePage`: throw when not initialized; otherwise run the `try`
block and, on any internal error, return `createFallbackAnalysis` instead
of propagating the exception. -/
def analyzePage (extract : String → List String × List String)
    (isInitialized : Bool) (pd : PageInput) : Except String Analysis :=
  if isInitialized = false then Except.error "RealTimeAnalyzer not initialized"
  else
    match analyzePageInner extract pd with
    | Except.ok a => Except.ok a
    | Except.error _ => Except.ok (createFallbackAnalysis pd)

/-- C10: `analyzePage` throws exactly when the analyzer is not initialized;
once initialized it is total for every page input, and any internal
analysis error is caught and replaced by the fallback analysis object,
which carries the explicit indicator `error: true`. -/
theorem analyzePage_throws_iff_uninitialized
    (extract : String → List String × List String) (isInitialized : Bool)
    (pd : PageInput) :
    (isInitialized = false →
      analyzePage extract isInitialized pd = Except.error "RealTimeAnalyzer not initialized")
    ∧ (isInitialized = true → ∃ a, analyzePage extract isInitialized pd = Except.ok a)
    ∧ (isInitialized = true → ∀ e, analyzePageInner extract pd = Except.error e →
        analyzePage extract isInitialized pd = Except.ok (createFallbackAnalysis pd)
          ∧ (createFallbackAnalysis pd).error = true) := by
  refine ⟨fun hinit => ?_, fun hinit => ?_, fun hinit e he => ?_⟩
  · rw [analyzePage, if_pos hinit]
  · rw [analyzePage, if_neg (by simp [hinit])]
    cases hinner : analyzePageInner extract pd with
    | ok a => exact ⟨a, rfl⟩
    | error e => exact ⟨createFallbackAnalysis pd, rfl⟩
  · rw [analyzePage, if_neg (by simp [hinit]), he]
    exact ⟨rfl, rfl⟩

/-- The `try` block of `analyzePage` raises on every input: content
classification invokes a method the class never defines. -/
theorem analyzePageInner_raises (extract : String → List String × List String)
    (pd : PageInput) : analyzePageInner extract pd = Except.error JsErr.typeError := rfl

/-- Witness for `analyzePage_throws_iff_uninitialized`: concrete runs in
the uninitialized and the initialized state. -/
theorem analyzePage_throws_iff_uninitialized_witness :
    (analyzePage (fun _ => ([], [])) false ⟨"u", "t", "c", "d"⟩
        = Except.error "RealTimeAnalyzer not initialized")
    ∧ (analyzePage (fun _ => ([], [])) true ⟨"u", "t", "c", "d"⟩
          = Except.ok (createFallbackAnalysis ⟨"u", "t", "c", "d"⟩)
        ∧ (createFallbackAnalysis (⟨"u", "t", "c", "d"⟩ : PageInput)).error = true) :=
  ⟨(analyzePage_throws_iff_uninitialized (fun _ => ([], [])) false ⟨"u", "t", "c", "d"⟩).1 rfl,
   (analyzePage_throws_iff_uninitialized (fun _ => ([], [])) true ⟨"u", "t", "c", "d"⟩).2.2
     rfl JsErr.typeError rfl⟩

/-- C6: for every empty text input (and in fact for every input, the whole
`try` block raising as it does), the initialized analyzer never throws and
yields the low-confidence default: category `general` with confidence
`≤ 0.3`, language `english`, neutral sentiment, and an engagement score of
exactly `0.5`. -/
theorem empty_input_yields_default (extract : String → List String × List String)
    (pd : PageInput) (_hempty : pd.content = "") :
    ∃ a, analyzePage extract true pd = Except.ok a
      ∧ a.categoryPrimary = "general"
      ∧ a.categoryConfidence ≤ 0.3
      ∧ a.languagePrimary = "english"
      ∧ a.sentimentPolarity = "neutral"
      ∧ a.engagementScore = 0.5 := by
  refine ⟨createFallbackAnalysis pd, ?_, rfl, le_refl _, rfl, rfl, rfl⟩
  rw [analyzePage, if_neg (by simp), analyzePageInner_raises]

/-- Witness for `empty_input_yields_default` at a concrete empty-content
page. -/
theorem empty_input_yields_default_witness :
    ∃ a, analyzePage (fun _ => ([], [])) true ⟨"https://x", "t", "", ""⟩ = Except.ok a
      ∧ a.categoryPrimary = "general"
      ∧ a.categoryConfidence ≤ 0.3
      ∧ a.languagePrimary = "english"
      ∧ a.sentimentPolarity = "neutral"
      ∧ a.engagementScore = 0.5 :=
  empty_input_yields_default (fun _ => ([], [])) ⟨"https://x", "t", "", ""⟩ rfl

/-! ## Engagement prediction (`RealTimeAnalyzer.predictEngagement`,
lines 528–562) -/

/-- `this.assessContentQuality(pageData)` (line 531): no method of this
name is defined anywhere in the repository, so the call raises
`TypeError: this.assessContentQuality is not a function`. -/
def assessContentQualityE : Except JsErr ℚ :=
  Except.error JsErr.typeError

/-- `predictEngagement` (lines 528–562), faithful to its error path: the
very first property of its `factors` object literal raises (see
`assessContentQualityE`) before any other factor, the `weights` table or
the summation loop is evaluated — the remaining factor helpers
(`calculateMediaRichness`, `assessInteractivity`, `assessPersonalRelevance`,
`assessTimeliness`, `extractSocialSignals`) are equally absent from the
repository.  No invocation ever yields an engagement score. -/
def predictEngagement (_pd : PageInput) : Except JsErr ℚ := do
  let _cq ← assessContentQualityE
  Except.error JsErr.typeError

/-- Counterexample to C5: at a concrete page, `predictEngagement` does not
return the claimed clamped weighted sum — it returns no score at all, the
call raising `TypeError` at its first factor. -/
theorem predictEngagement_no_score_counterexample :
    predictEngagement ⟨"https://example.com", "Example", "some text", ""⟩
        = Except.error JsErr.typeError
    ∧ ∀ q : ℚ, predictEngagement ⟨"https://example.com", "Example", "some text", ""⟩
        ≠ Except.ok q := by
  refine ⟨rfl, fun q h => ?_⟩
  rw [show predictEngagement ⟨"https://example.com", "Example", "some text", ""⟩
      = Except.error JsErr.typeError from rfl] at h
  exact Except.noConfusion h

/-- C5 (amended): `predictEngagement` never produces an engagement score —
every invocation raises before its factors object exists — and the
engagement score the initialized pipeline actually delivers for every page
is the fallback's `0.5` exactly, flagged with `error: true`. -/
theorem predictEngagement_raises_pipeline_fallback
    (pd : PageInput) (extract : String → List String × List String) :
    predictEngagement pd = Except.error JsErr.typeError
    ∧ ∃ a, analyzePage extract true pd = Except.ok a
        ∧ a.engagementScore = 0.5 ∧ a.error = true := by
  refine ⟨rfl, createFallbackAnalysis pd, ?_, rfl, rfl⟩
  rw [analyzePage, if_neg (by simp), analyzePageInner_raises]

end Nexus
